import Mathlib

/-!
Verification of `src/fib.py`: a two-function Fibonacci program.

The embedding follows the Python source:
* `fibonacci_recursive` mirrors the recursive evaluator (integer input,
  three-way case split with `n <= 0` checked first).
* `fibonacci` mirrors the iterative producer; its observable behaviour is
  the text it writes to standard output, modelled as a `String`
  (`print(a, end=" ")` emits the decimal rendering of `a` followed by one
  space; the final `print()` emits a newline).  Python's `range(n)`
  iterates `max n 0` times, i.e. `n.toNat` times.
* `mainOutput` mirrors the `__main__` block.
-/

/-- The recursive evaluator `fibonacci_recursive` of src/fib.py:
`if n <= 0: return 0; elif n == 1: return 1;
else: return fibonacci_recursive(n-1) + fibonacci_recursive(n-2)`. -/
def fibonacci_recursive (n : Int) : Int :=
  if n ≤ 0 then 0
  else if n = 1 then 1
  else fibonacci_recursive (n - 1) + fibonacci_recursive (n - 2)
termination_by n.toNat
decreasing_by
  all_goals simp_wf
  all_goals omega

/-- The loop body of `fibonacci` in src/fib.py, as the string it prints:
`for i in range(k): print(a, end=" "); a, b = b, a + b`, with `k`
iterations remaining and accumulators `a`, `b`. -/
def fibLoop : Nat → Int → Int → String
  | 0, _, _ => ""
  | k + 1, a, b => toString a ++ " " ++ fibLoop k b (a + b)

/-- The iterative producer `fibonacci` of src/fib.py, as the string it
prints: the loop output for `range(n)` (`n.toNat` iterations, starting
from `a, b = 0, 1`) followed by the newline of the final `print()`. -/
def fibonacci (n : Int) : String :=
  fibLoop n.toNat 0 1 ++ "\n"

/-- The sequence of integers printed by the loop of `fibonacci`, before
rendering: same recursion as `fibLoop`, collecting each printed `a`. -/
def fibLoopVals : Nat → Int → Int → List Int
  | 0, _, _ => []
  | k + 1, a, b => a :: fibLoopVals k b (a + b)

/-- The integers printed by `fibonacci n`, in print order. -/
def printedValues (n : Int) : List Int :=
  fibLoopVals n.toNat 0 1

/-- Renders a list of printed integers the way the loop does: each value
followed by a single space. -/
def renderVals : List Int → String
  | [] => ""
  | v :: vs => toString v ++ " " ++ renderVals vs

/-- The `__main__` block of src/fib.py: two header lines, the iterative
producer at 10, then the recursive evaluator printed for `i in range(10)`
with the same value-then-space pattern and a final newline. -/
def mainOutput : String :=
  "Iterative Fibonacci:\n" ++ fibonacci 10 ++
  "Recursive Fibonacci:\n" ++
  String.join ((List.range 10).map (fun (i : Nat) => toString (fibonacci_recursive (i : Int)) ++ " ")) ++
  "\n"

/-- Reference Fibonacci on naturals, structurally recursive (used to
relate the two implementations and to evaluate concrete values). -/
def fibN : Nat → Int
  | 0 => 0
  | 1 => 1
  | k + 2 => fibN (k + 1) + fibN k

/-- A fuel-bounded interpreter for the recursion of `fibonacci_recursive`:
it takes one call-stack step per unit of fuel, returning `none` when the
fuel runs out before a base case is reached.  Termination of the source
recursion is the statement that some finite fuel always suffices. -/
def fibFuel : Nat → Int → Option Int
  | 0, _ => none
  | fuel + 1, n =>
    if n ≤ 0 then some 0
    else if n = 1 then some 1
    else
      match fibFuel fuel (n - 1), fibFuel fuel (n - 2) with
      | some x, some y => some (x + y)
      | _, _ => none

lemma fibonacci_recursive_nonpos {n : Int} (h : n ≤ 0) :
    fibonacci_recursive n = 0 := by
  rw [fibonacci_recursive]
  simp [h]

lemma fibonacci_recursive_one : fibonacci_recursive 1 = 1 := by
  rw [fibonacci_recursive]
  norm_num

lemma fibonacci_recursive_step {n : Int} (h : 2 ≤ n) :
    fibonacci_recursive n = fibonacci_recursive (n - 1) + fibonacci_recursive (n - 2) := by
  rw [fibonacci_recursive]
  rw [if_neg (by omega), if_neg (by omega)]

lemma fibN_add_two (k : Nat) : fibN (k + 2) = fibN (k + 1) + fibN k := by
  simp [fibN]

/-- The recursive evaluator agrees with the reference `fibN` on all
natural-number inputs. -/
lemma fibonacci_recursive_eq_fibN : ∀ k : Nat, fibonacci_recursive (k : Int) = fibN k := by
  intro k
  induction k using Nat.strong_induction_on with
  | _ k ih =>
    match k with
    | 0 => simpa using fibonacci_recursive_nonpos (by norm_num)
    | 1 => simpa using fibonacci_recursive_one
    | k + 2 =>
      have h2 : (2 : Int) ≤ ((k + 2 : Nat) : Int) := by push_cast; omega
      rw [fibonacci_recursive_step h2, fibN_add_two]
      have e1 : ((k + 2 : Nat) : Int) - 1 = ((k + 1 : Nat) : Int) := by push_cast; ring
      have e2 : ((k + 2 : Nat) : Int) - 2 = ((k : Nat) : Int) := by push_cast; ring
      rw [e1, e2, ih (k + 1) (by omega), ih k (by omega)]

lemma fibLoopVals_length (m : Nat) : ∀ a b : Int, (fibLoopVals m a b).length = m := by
  induction m with
  | zero => intro a b; rfl
  | succ m ih => intro a b; simp [fibLoopVals, ih]

lemma fibLoopVals_shift (m : Nat) : ∀ i : Nat,
    fibLoopVals m (fibN i) (fibN (i + 1)) = (List.range m).map (fun j => fibN (i + j)) := by
  induction m with
  | zero => intro i; rfl
  | succ m ih =>
    intro i
    rw [List.range_succ_eq_map]
    simp only [fibLoopVals, List.map_cons, List.map_map]
    have hsum : fibN i + fibN (i + 1) = fibN (i + 1 + 1) := by
      rw [fibN_add_two]; ring
    rw [hsum, ih (i + 1)]
    have hfun : ((fun j => fibN (i + j)) ∘ Nat.succ) = (fun j => fibN (i + 1 + j)) := by
      funext j
      simp only [Function.comp]
      congr 1
      omega
    rw [hfun]
    simp

lemma printedValues_eq (n : Int) :
    printedValues n = (List.range n.toNat).map (fun j => fibN j) := by
  have h0 : (0 : Int) = fibN 0 := rfl
  have h1 : (1 : Int) = fibN 1 := rfl
  rw [printedValues, h0, h1, fibLoopVals_shift]
  simp

lemma fibLoop_eq_render (m : Nat) : ∀ a b : Int,
    fibLoop m a b = renderVals (fibLoopVals m a b) := by
  induction m with
  | zero => intro a b; rfl
  | succ m ih => intro a b; simp [fibLoop, fibLoopVals, renderVals, ih]

lemma fibN_nonneg : ∀ k : Nat, 0 ≤ fibN k := by
  intro k
  induction k using Nat.strong_induction_on with
  | _ k ih =>
    match k with
    | 0 => norm_num [fibN]
    | 1 => norm_num [fibN]
    | k + 2 =>
      rw [fibN_add_two]
      have h1 := ih (k + 1) (by omega)
      have h2 := ih k (by omega)
      omega

lemma fibonacci_recursive_nonneg_aux (n : Int) : 0 ≤ fibonacci_recursive n := by
  by_cases h : n ≤ 0
  · rw [fibonacci_recursive_nonpos h]
  · have hn : n = (n.toNat : Int) := by omega
    rw [hn, fibonacci_recursive_eq_fibN]
    exact fibN_nonneg _

lemma fibFuel_complete : ∀ m : Nat, ∀ n : Int, n.toNat ≤ m →
    fibFuel (m + 1) n = some (fibonacci_recursive n) := by
  intro m
  induction m with
  | zero =>
    intro n hn
    have h0 : n ≤ 0 := by omega
    rw [fibFuel, if_pos h0, fibonacci_recursive_nonpos h0]
  | succ m ih =>
    intro n hn
    by_cases h0 : n ≤ 0
    · rw [fibFuel, if_pos h0, fibonacci_recursive_nonpos h0]
    · by_cases h1 : n = 1
      · subst h1
        rw [fibFuel, if_neg h0, if_pos rfl, fibonacci_recursive_one]
      · have h2 : 2 ≤ n := by omega
        rw [fibFuel, if_neg h0, if_neg h1,
          ih (n - 1) (by omega), ih (n - 2) (by omega),
          fibonacci_recursive_step h2]

/-- C1: the `__main__` block prints exactly the four-line block of spec
section 6, byte for byte: the iterative header, the ten iterative values
each followed by a space then a newline, the recursive header, and the
ten recursive values each followed by a space then a newline. -/
theorem main_output_exact :
    mainOutput =
      "Iterative Fibonacci:\n0 1 1 2 3 5 8 13 21 34 \nRecursive Fibonacci:\n0 1 1 2 3 5 8 13 21 34 \n" := by
  rw [mainOutput]
  have hr : List.range 10 = [0, 1, 2, 3, 4, 5, 6, 7, 8, 9] := rfl
  rw [hr]
  simp only [List.map_cons, List.map_nil, fibonacci_recursive_eq_fibN]
  decide

/-- C2: for every integer `n` the recursive evaluator follows the
three-way case split in priority order: `n ≤ 0` returns 0 (negatives
included, no error), otherwise `n = 1` returns 1, otherwise it returns
the sum of the evaluator at `n-1` and at `n-2`. -/
theorem fibonacci_recursive_case_split (n : Int) :
    (n ≤ 0 → fibonacci_recursive n = 0) ∧
    (¬ n ≤ 0 → n = 1 → fibonacci_recursive n = 1) ∧
    (¬ n ≤ 0 → n ≠ 1 →
      fibonacci_recursive n = fibonacci_recursive (n - 1) + fibonacci_recursive (n - 2)) := by
  refine ⟨fun h => fibonacci_recursive_nonpos h, fun _ h1 => ?_, fun h h1 => ?_⟩
  · rw [h1]; exact fibonacci_recursive_one
  · exact fibonacci_recursive_step (by omega)

theorem fibonacci_recursive_case_split_witness :
    fibonacci_recursive (-5) = 0 ∧ fibonacci_recursive 1 = 1 ∧
    fibonacci_recursive 7 = fibonacci_recursive (7 - 1) + fibonacci_recursive (7 - 2) :=
  ⟨(fibonacci_recursive_case_split (-5)).1 (by decide),
   (fibonacci_recursive_case_split 1).2.1 (by decide) rfl,
   (fibonacci_recursive_case_split 7).2.2 (by decide) (by decide)⟩

/-- C3: for every integer `n ≥ 0` the iterative producer prints exactly
`n` integers, each followed by one space, then a newline; at `n = 0` the
output is exactly one newline. -/
theorem fibonacci_output_shape (n : Int) (h : 0 ≤ n) :
    (((printedValues n).length : Int) = n ∧
     fibonacci n = renderVals (printedValues n) ++ "\n") ∧
    (n = 0 → fibonacci n = "\n") := by
  refine ⟨⟨?_, ?_⟩, ?_⟩
  · rw [printedValues, fibLoopVals_length]; omega
  · rw [fibonacci, printedValues, fibLoop_eq_render]
  · intro h0
    rw [h0]
    rfl

theorem fibonacci_output_shape_witness :
    (0 : Int) ≤ 3 ∧
    ((((printedValues 3).length : Int) = 3 ∧
      fibonacci 3 = renderVals (printedValues 3) ++ "\n") ∧
     ((3 : Int) = 0 → fibonacci 3 = "\n")) :=
  ⟨by decide, fibonacci_output_shape 3 (by decide)⟩

/-- C4: for every integer `n ≥ 1` and every index `k < n`, the `k`-th
value printed by the iterative producer equals the recursive evaluator
at `k`: the two implementations agree on all produced terms. -/
theorem iterative_matches_recursive (n : Int) (k : Nat) (hn : 1 ≤ n) (hk : (k : Int) < n) :
    (printedValues n)[k]? = some (fibonacci_recursive (k : Int)) := by
  rw [printedValues_eq, List.getElem?_map, List.getElem?_range (by omega),
    fibonacci_recursive_eq_fibN]
  rfl

theorem iterative_matches_recursive_witness :
    (1 : Int) ≤ 10 ∧ ((7 : Nat) : Int) < 10 ∧
    (printedValues 10)[(7 : Nat)]? = some (fibonacci_recursive ((7 : Nat) : Int)) :=
  ⟨by decide, by decide, iterative_matches_recursive 10 7 (by decide) (by decide)⟩

/-- C5: for every integer `k ≥ 2` the recursive evaluator satisfies the
Fibonacci recurrence `f k = f (k-1) + f (k-2)`. -/
theorem fibonacci_recursive_recurrence (k : Int) (h : 2 ≤ k) :
    fibonacci_recursive k = fibonacci_recursive (k - 1) + fibonacci_recursive (k - 2) :=
  fibonacci_recursive_step h

theorem fibonacci_recursive_recurrence_witness :
    (2 : Int) ≤ 2 ∧
    fibonacci_recursive 2 = fibonacci_recursive (2 - 1) + fibonacci_recursive (2 - 2) :=
  ⟨by decide, fibonacci_recursive_recurrence 2 (by decide)⟩

/-- C6: the recursive evaluator takes the point values `f 0 = 0`,
`f 1 = 1`, `f (-5) = 0` and `f 10 = 55`. -/
theorem fibonacci_recursive_point_values :
    fibonacci_recursive 0 = 0 ∧ fibonacci_recursive 1 = 1 ∧
    fibonacci_recursive (-5) = 0 ∧ fibonacci_recursive 10 = 55 := by
  refine ⟨fibonacci_recursive_nonpos le_rfl, fibonacci_recursive_one,
    fibonacci_recursive_nonpos (by norm_num), ?_⟩
  have h := fibonacci_recursive_eq_fibN 10
  push_cast at h
  rw [h]
  decide

/-- C7: for every negative integer `n` the iterative producer performs
zero iterations: it prints no values, emits only the newline, and behaves
exactly as it does at `n = 0`, raising no error. -/
theorem fibonacci_negative_noop (n : Int) (h : n < 0) :
    printedValues n = [] ∧ fibonacci n = "\n" ∧
    printedValues n = printedValues 0 ∧ fibonacci n = fibonacci 0 := by
  have ht : n.toNat = 0 := by omega
  refine ⟨?_, ?_, ?_, ?_⟩ <;>
    simp [printedValues, fibonacci, ht, fibLoopVals, fibLoop]

theorem fibonacci_negative_noop_witness :
    (-1 : Int) < 0 ∧
    (printedValues (-1) = [] ∧ fibonacci (-1) = "\n" ∧
     printedValues (-1) = printedValues 0 ∧ fibonacci (-1) = fibonacci 0) :=
  ⟨by decide, fibonacci_negative_noop (-1) (by decide)⟩

/-- C8: the recursion of the recursive evaluator terminates on every
integer input: the fuel-bounded interpreter `fibFuel`, which takes one
call step per unit of fuel, already succeeds with `n.toNat + 1` fuel and
returns the evaluator's value — every `n ≤ 1` is a base case and both
recursive calls strictly decrease the well-founded measure. -/
theorem fibonacci_recursive_terminates (n : Int) :
    fibFuel (n.toNat + 1) n = some (fibonacci_recursive n) :=
  fibFuel_complete n.toNat n le_rfl

/-- C9: the recursive evaluator never returns a negative value:
`0 ≤ f n` for every integer `n`, negative inputs included. -/
theorem fibonacci_recursive_nonneg (n : Int) : 0 ≤ fibonacci_recursive n :=
  fibonacci_recursive_nonneg_aux n

/-- C10: the recursive evaluator is monotonically non-decreasing on the
integers: `f n ≤ f (n + 1)` for every integer `n`. -/
theorem fibonacci_recursive_monotone (n : Int) :
    fibonacci_recursive n ≤ fibonacci_recursive (n + 1) := by
  by_cases h : n + 1 ≤ 0
  · rw [fibonacci_recursive_nonpos h, fibonacci_recursive_nonpos (by omega)]
  · by_cases h1 : n + 1 = 1
    · rw [h1, fibonacci_recursive_one, fibonacci_recursive_nonpos (by omega)]
      norm_num
    · have h2 : 2 ≤ n + 1 := by omega
      rw [fibonacci_recursive_step h2]
      have hd : n + 1 - 1 = n := by ring
      rw [hd]
      have hnn := fibonacci_recursive_nonneg_aux (n + 1 - 2)
      omega
